import Mathlib

/-!
Verification of the ESP32-BT-TNC packet-radio modem pipeline.

Shallow embedding of the C++ sources into Lean:
  - src/afskEncode.cpp       : ax25Encode, nrziEncode, transmitAX25
  - src/goertzelFilter.cpp   : crc16_ccitt, sendKISSpacket, handleBit, processGoertzel
  - src/afskEncoder.cpp      : afskSend, the placeholder transmitAX25, status enum
  - src/afskEncodeModern.cpp : AFSKEncoderModern (encodeAX25, encodeNRZI, transmitPacket)
  - src/btKISSfunctions.cpp  : the Bluetooth sendKISSpacket variant

Machine integers are modelled as Nat with explicit truncation (mod 256 for
uint8_t, mod 65536 for uint16_t) at the points where the C code stores into
a fixed-width variable.  Byte buffers are List Nat, bit streams are
List Bool.  Bits are streamed LSB-first per byte, exactly as the loops
for j in 0..7 over input[i] and (1 << j) do in the source.
-/

/-- Bits of one byte, LSB first: bit j is input[i] and (1 shifted left j). -/
def byteBits (b : Nat) : List Bool :=
  (List.range 8).map (fun j => b.testBit j)

/-- Bit stream of a byte buffer, bytes in order, LSB-first inside a byte. -/
def bytesBits (bs : List Nat) : List Bool :=
  (bs.map byteBits).flatten

/-!
NRZI encoder, from src/afskEncode.cpp lines 197-212 (nrziEncode).
The C code keeps bool last = true and, for every input bit, flips last on a
0 bit and keeps it on a 1 bit, then stores last (one output byte per bit).
-/

/-- Recursive core of nrziEncode: the running polarity is the first argument. -/
def nrziEncodeBits : Bool → List Bool → List Bool
  | _, [] => []
  | last, b :: bs =>
    let cur := if b then last else !last
    cur :: nrziEncodeBits cur bs

/-- nrziEncode from src/afskEncode.cpp: polarity starts at true, input is a
byte buffer streamed LSB-first, output is one physical bit per input bit. -/
def nrziEncode (input : List Nat) : List Bool :=
  nrziEncodeBits true (bytesBits input)

/-- The NRZI decoder exactly as the spec and the claim state it (and as
handleBit lines 126-127 computes it): logical = previous XOR current, then
previous becomes current.  First argument is the previous physical bit. -/
def nrziDecodeXor : Bool → List Bool → List Bool
  | _, [] => []
  | prev, p :: ps => (Bool.xor prev p) :: nrziDecodeXor p ps

/-- The standard NRZI decoder: logical = NOT (previous XOR current).  A
transition encodes 0 and no transition encodes 1, inverting the encoder. -/
def nrziDecodeXnor : Bool → List Bool → List Bool
  | _, [] => []
  | prev, p :: ps => (!(Bool.xor prev p)) :: nrziDecodeXnor p ps

/-!
AX.25 bit-stuffer, from src/afskEncode.cpp lines 148-182 (ax25Encode).
State of the packing loop: output bytes written so far (the leading 0x7E
flag is written before the loop), the byte being assembled (buf), the bit
cursor inside it (count) and the run of consecutive ones (ones).
-/

structure StuffState where
  out : List Nat
  buf : Nat
  count : Nat
  ones : Nat
deriving Repr, DecidableEq

/-- One iteration of the inner loop of ax25Encode for a single input bit.
Mirrors the source order: update ones, write the data bit at position count
and increment count, then on ones = 5 increment count once more for the
stuffed zero and reset ones, then flush buf if count is exactly 8.  The
source tests count == 8 only once, after both increments, so when the fifth
one lands at bit position 7 the counter becomes 9 and no flush happens, now
or ever after (the count == 8 test can never be true again).  The uint8_t
store buf |= bit << count is modelled as lor followed by mod 256. -/
def stuffStep (s : StuffState) (bit : Bool) : StuffState :=
  if bit then
    if s.ones + 1 = 5 then
      if s.count + 2 = 8 then ⟨s.out ++ [(s.buf ||| (1 <<< s.count)) % 256], 0, 0, 0⟩
      else ⟨s.out, (s.buf ||| (1 <<< s.count)) % 256, s.count + 2, 0⟩
    else
      if s.count + 1 = 8 then ⟨s.out ++ [(s.buf ||| (1 <<< s.count)) % 256], 0, 0, s.ones + 1⟩
      else ⟨s.out, (s.buf ||| (1 <<< s.count)) % 256, s.count + 1, s.ones + 1⟩
  else
    if s.count + 1 = 8 then ⟨s.out ++ [s.buf], 0, 0, 0⟩
    else ⟨s.out, s.buf, s.count + 1, 0⟩

/-- ax25Encode from src/afskEncode.cpp: opening flag, stuffed payload bits
packed LSB-first, flush of a partial trailing byte, closing flag.  The
returned list is the sequence of bytes stored into the output buffer, in
store order; its length is the returned outIndex. -/
def ax25Encode (input : List Nat) : List Nat :=
  let s := (bytesBits input).foldl stuffStep ⟨[0x7E], 0, 0, 0⟩
  (if s.count ≠ 0 then s.out ++ [s.buf] else s.out) ++ [0x7E]

/-- De-stuffing as the claim words it: scanning the stuffed bit stream, the
bit following every run of five consecutive ones is an inserted zero and is
dropped; all other bits are kept.  First argument is the current run of
ones. -/
def unstuff : Nat → List Bool → List Bool
  | _, [] => []
  | ones, b :: bs =>
    if ones = 5 then unstuff 0 bs
    else b :: unstuff (if b then ones + 1 else 0) bs

/-!
CRC-16-CCITT, from src/goertzelFilter.cpp lines 90-100 (crc16_ccitt).
uint16_t crc = 0xFFFF; per byte: crc ^= byte << 8, then eight MSB-first
shift steps with polynomial 0x1021.  All stores are into a uint16_t, hence
the mod 65536.
-/

/-- One shift step of crc16_ccitt: crc = (crc and 0x8000) ? (crc << 1) ^ 0x1021 : crc << 1. -/
def crcShift (c : Nat) : Nat :=
  if c &&& 0x8000 ≠ 0 then ((c <<< 1) ^^^ 0x1021) % 65536 else (c <<< 1) % 65536

/-- Processing of one data byte by crc16_ccitt: crc ^= byte << 8 followed by
eight shift steps.  The byte is a uint8_t, hence the mod 256. -/
def crcByte (c d : Nat) : Nat :=
  crcShift^[8] ((c ^^^ ((d % 256) <<< 8)) % 65536)

/-- crc16_ccitt from src/goertzelFilter.cpp: initial value 0xFFFF, bytes
processed in order, no final XOR. -/
def crc16_ccitt (data : List Nat) : Nat :=
  data.foldl crcByte 0xFFFF

/-!
KISS framing of the receive output, from src/goertzelFilter.cpp lines 51-80
(sendKISSpacket) and from src/btKISSfunctions.cpp lines 25-54 (the variant
without the command byte).  Each definition returns the exact sequence of
bytes written to one output stream, in write order.
-/

/-- The escaping loop body shared by both sendKISSpacket variants: 0xC0
becomes 0xDB 0xDC, 0xDB becomes 0xDB 0xDD, anything else passes through. -/
def kissWrites : List Nat → List Nat
  | [] => []
  | d :: rest =>
    if d = 0xC0 then 0xDB :: 0xDC :: kissWrites rest
    else if d = 0xDB then 0xDB :: 0xDD :: kissWrites rest
    else d :: kissWrites rest

/-- sendKISSpacket from src/goertzelFilter.cpp: FEND, command byte 0x00,
escaped payload, closing FEND, all written to BTSerial. -/
def sendKISSpacket (data : List Nat) : List Nat :=
  0xC0 :: 0x00 :: (kissWrites data ++ [0xC0])

/-- sendKISSpacket from src/btKISSfunctions.cpp: FEND, escaped payload,
closing FEND — no 0x00 command byte.  The same sequence is written to both
Serial and BTSerial; this is the per-stream sequence. -/
def sendKISSpacketBT (data : List Nat) : List Nat :=
  0xC0 :: (kissWrites data ++ [0xC0])

/-- Per-byte escape map used to state what the framing loops produce. -/
def kissEscape (b : Nat) : List Nat :=
  if b = 0xC0 then [0xDB, 0xDC] else if b = 0xDB then [0xDB, 0xDD] else [b]

/-!
The receive bit-handler, from src/goertzelFilter.cpp lines 116-155
(handleBit).  Every variable of the function — lastNRZ, oneCount, shiftReg,
inFrame, frameBuffer, frameIndex — is a local, re-initialised on every
call, exactly as in the source.  frameBuffer is a local uint8_t[330] whose
contents the C code never initialises; it is modelled as zeros, which only
matters on paths that are in fact unreachable.  The result records the
externally visible effects of one call: the payloads handed to
sendKISSpacket, whether the flag branch fired, and whether the in-frame
append branch stored a bit.
-/

structure HBResult where
  sent : List (List Nat)
  flagged : Bool
  appended : Bool
deriving Repr, DecidableEq

/-- handleBit from src/goertzelFilter.cpp.  NRZI decode with the local
lastNRZ = true, bit-stuffing counter from the local oneCount = 0, flag
detection on the local shiftReg = 0, frame accumulation behind the local
inFrame = false and frameIndex = 0. -/
def handleBit (bit : Bool) : HBResult :=
  let lastNRZ := true
  let oneCount := 0
  let shiftReg := 0
  let inFrame := false
  let frameBuffer : List Nat := List.replicate 330 0
  let frameIndex := 0
  let decoded := Bool.xor lastNRZ bit
  let oneCount := if decoded then oneCount + 1 else 0
  if oneCount = 6 then ⟨[], false, false⟩
  else
    let shiftReg := (shiftReg >>> 1) ||| ((if decoded then 1 else 0) <<< 7)
    if shiftReg = 0x7E then
      if inFrame ∧ 3 ≤ frameIndex ∧
          crc16_ccitt (frameBuffer.take (frameIndex - 2)) = 0xF0B8 then
        ⟨[frameBuffer.take (frameIndex - 2)], true, false⟩
      else ⟨[], true, false⟩
    else if inFrame ∧ frameIndex < 330 then ⟨[], false, true⟩
    else ⟨[], false, false⟩

/-!
Goertzel block processing, from src/goertzelFilter.cpp lines 173-197
(processGoertzel) with the coefficients from setupGoertzel (lines 28-35).
The float recurrences are modelled over the exact rationals; the ADC
readings are the integers returned by analogRead, centred by subtracting
ADC_MIDPOINT = 2048.  The function consumes one block of readings and
returns the list of bits handed to handleBit — exactly one per block.
-/

/-- The single loop of processGoertzel, updating the mark pair and the
space pair from the same centred sample: new_q = coeff * q1 - q2 + in,
then q2 = q1, q1 = new_q, for each frequency. -/
def goertzelLoop (cm cs : ℚ) : (ℚ × ℚ) × (ℚ × ℚ) → List ℚ → (ℚ × ℚ) × (ℚ × ℚ)
  | st, [] => st
  | ((qm1, qm2), (qs1, qs2)), x :: xs =>
    goertzelLoop cm cs ((cm * qm1 - qm2 + x, qm1), (cs * qs1 - qs2 + x, qs1)) xs

/-- processGoertzel from src/goertzelFilter.cpp: per call the recurrences
start from (0,0), every ADC reading is centred, the loop above runs over
the block, the squared magnitudes are formed and one decided bit
(magMark > magSpace) is handed to handleBit. -/
def processGoertzel (cm cs : ℚ) (adc : List ℤ) : List Bool :=
  let ins := adc.map (fun a => ((a - 2048 : ℤ) : ℚ))
  let st := goertzelLoop cm cs ((0, 0), (0, 0)) ins
  let magMark := st.1.1 * st.1.1 + st.1.2 * st.1.2 - st.1.1 * st.1.2 * cm
  let magSpace := st.2.1 * st.2.1 + st.2.2 * st.2.2 - st.2.1 * st.2.2 * cs
  [decide (magSpace < magMark)]

/-- One update of the second-order recurrence for a single frequency, as
the spec states it: qNew = coeff * q1 - q2 + sample; q2 = q1; q1 = qNew. -/
def goertzelStep (coeff : ℚ) (q : ℚ × ℚ) (x : ℚ) : ℚ × ℚ :=
  (coeff * q.1 - q.2 + x, q.1)

/-- Squared magnitude of one frequency bin over a block, as the spec
states it: run the recurrence from (0,0), then q1² + q2² - q1·q2·coeff. -/
def goertzelMag (coeff : ℚ) (xs : List ℚ) : ℚ :=
  let q := xs.foldl (goertzelStep coeff) (0, 0)
  q.1 * q.1 + q.2 * q.2 - q.1 * q.2 * coeff

/-!
Transmit entry point of the main pipeline, from src/afskEncode.cpp lines
260-278 (transmitAX25), the function called by checkBTforData in
src/btFunctions.cpp.  It rejects an empty frame or a frame whose first
byte is not 0x00 by returning before any hardware access; otherwise it
keys PTT, sends the NRZI bits of the stuffed encoding of the bytes after
the command byte, and unkeys PTT.
-/

structure TxResult where
  ptt : Bool
  sent : Option (List Bool)
deriving Repr, DecidableEq

/-- transmitAX25 from src/afskEncode.cpp.  ptt records whether the PTT pin
was driven high at any point; sent is the bit stream given to afskSend. -/
def transmitAX25 (kissFrame : List Nat) : TxResult :=
  match kissFrame with
  | [] => ⟨false, none⟩
  | k :: rest =>
    if k ≠ 0x00 then ⟨false, none⟩
    else ⟨true, some (nrziEncode (ax25Encode rest))⟩

/-!
The function-based encoder variant, from src/afskEncoder.cpp: the status
enum (afskEncoder.h lines 47-56), the busy gate of afskSend (lines
251-295) and the placeholder transmitAX25 (lines 303-334), which checks
only for a null pointer or zero length and then transmits the raw bits of
every byte of the frame, command byte included, with no AX.25 encoding and
no PTT control.
-/

inductive AfskStatus where
  | AFSK_SUCCESS
  | AFSK_ERROR_INVALID_PIN
  | AFSK_ERROR_TIMER_INIT
  | AFSK_ERROR_DAC_INIT
  | AFSK_ERROR_INVALID_PARAMS
  | AFSK_ERROR_NOT_INITIALIZED
  | AFSK_ERROR_BUFFER_OVERFLOW
deriving Repr, DecidableEq

/-- afskSend from src/afskEncoder.cpp, lines 251-295, restricted to its
control flow: not yet set up returns AFSK_ERROR_NOT_INITIALIZED, already
transmitting returns AFSK_ERROR_INVALID_PARAMS (the source comment reads
Already transmitting), otherwise the bits are modulated and SUCCESS is
returned with the transmitting flag back at false. -/
def afskSend (inited transmitting : Bool) (bits : List Bool) :
    AfskStatus × Option (List Bool) :=
  if inited = false then (AfskStatus.AFSK_ERROR_NOT_INITIALIZED, none)
  else if transmitting then (AfskStatus.AFSK_ERROR_INVALID_PARAMS, none)
  else (AfskStatus.AFSK_SUCCESS, some bits)

/-- The placeholder transmitAX25 from src/afskEncoder.cpp lines 303-334:
reject only a null pointer or length zero, then hand the LSB-first bits of
the whole frame to afskSend. -/
def transmitAX25placeholder (inited transmitting : Bool) (kissFrame : List Nat) :
    AfskStatus × Option (List Bool) :=
  if kissFrame.length = 0 then (AfskStatus.AFSK_ERROR_INVALID_PARAMS, none)
  else afskSend inited transmitting (bytesBits kissFrame)

/-!
The class-based modern encoder, from src/afskEncodeModern.cpp:
encodeAX25 with a bounded output buffer (lines 294-343), encodeNRZI with a
bounded output buffer (lines 345-363) and transmitPacket (lines 123-169).
encodeAX25 returns 0 on buffer exhaustion at three early-return points; a
zero return is modelled as none.  outIndex is the number of bytes written
so far, i.e. the length of the out list (the opening flag included).
-/

inductive MStatus where
  | SUCCESS
  | ERROR_INVALID_PIN
  | ERROR_TIMER_INIT
  | ERROR_DAC_INIT
  | ERROR_INVALID_PARAMS
  | ERROR_NOT_INITIALIZED
  | ERROR_BUFFER_OVERFLOW
deriving Repr, DecidableEq

/-- One bit of the inner loop of the modern encodeAX25.  Same packing and
stuffing arithmetic as stuffStep, plus the two early failure returns: on a
stuffing insertion with outIndex >= maxOutputLen - 1, and after a flush
that leaves outIndex >= maxOutputLen - 1. -/
def stuffStepM (maxLen : Nat) (s : StuffState) (bit : Bool) : Option StuffState :=
  if bit then
    if s.ones + 1 = 5 then
      if maxLen - 1 ≤ s.out.length then none
      else if s.count + 2 = 8 then
        let out := s.out ++ [(s.buf ||| (1 <<< s.count)) % 256]
        if maxLen - 1 ≤ out.length then none else some ⟨out, 0, 0, 0⟩
      else some ⟨s.out, (s.buf ||| (1 <<< s.count)) % 256, s.count + 2, 0⟩
    else
      if s.count + 1 = 8 then
        let out := s.out ++ [(s.buf ||| (1 <<< s.count)) % 256]
        if maxLen - 1 ≤ out.length then none else some ⟨out, 0, 0, s.ones + 1⟩
      else some ⟨s.out, (s.buf ||| (1 <<< s.count)) % 256, s.count + 1, s.ones + 1⟩
  else
    if s.count + 1 = 8 then
      let out := s.out ++ [s.buf]
      if maxLen - 1 ≤ out.length then none else some ⟨out, 0, 0, 0⟩
    else some ⟨s.out, s.buf, s.count + 1, 0⟩

/-- The outer byte loop of the modern encodeAX25: it runs while input
remains and outIndex < maxOutputLen - 1, and exits normally (no error)
when the buffer-space condition fails. -/
def encodeAX25Mgo (maxLen : Nat) : StuffState → List Nat → Option StuffState
  | s, [] => some s
  | s, b :: bs =>
    if s.out.length < maxLen - 1 then
      match (byteBits b).foldlM (stuffStepM maxLen) s with
      | none => none
      | some s2 => encodeAX25Mgo maxLen s2 bs
    else some s

/-- encodeAX25 from src/afskEncodeModern.cpp: needs room for the two
flags, writes the opening flag, runs the bounded loop, flushes a partial
byte, and appends the closing flag only if it still fits. -/
def encodeAX25M (input : List Nat) (maxLen : Nat) : Option (List Nat) :=
  if maxLen < 2 then none
  else
    match encodeAX25Mgo maxLen ⟨[0x7E], 0, 0, 0⟩ input with
    | none => none
    | some s =>
      let out1 := if 0 < s.count then s.out ++ [s.buf] else s.out
      some (if out1.length < maxLen then out1 ++ [0x7E] else out1)

/-- encodeNRZI from src/afskEncodeModern.cpp: identical NRZI recurrence,
but stops writing once outIndex reaches maxOutputLen. -/
def encodeNRZIMgo (maxLen : Nat) : Bool → Nat → List Bool → List Bool
  | _, _, [] => []
  | last, outIdx, b :: bs =>
    if outIdx < maxLen then
      let cur := if b then last else !last
      cur :: encodeNRZIMgo maxLen cur (outIdx + 1) bs
    else []

/-- Bounded NRZI encoding of a byte buffer, lastBit starting at true. -/
def encodeNRZIM (input : List Nat) (maxLen : Nat) : List Bool :=
  encodeNRZIMgo maxLen true 0 (bytesBits input)

structure ModernState where
  inited : Bool
  transmitting : Bool
deriving Repr, DecidableEq

/-- transmitPacket from src/afskEncodeModern.cpp lines 123-169.  Checks in
source order: not yet begun, already transmitting (returns
ERROR_INVALID_PARAMS, the same constructor as for bad input, and touches
nothing), zero length or command byte not 0x00, then the two encoders with
their zero-length failure checks, then the synchronous transmission, after
which isTransmitting is false again.  The result carries the status, the
state after return, and the modulated bit stream if any. -/
def transmitPacket (st : ModernState) (kissFrame : List Nat) :
    MStatus × ModernState × Option (List Bool) :=
  if st.inited = false then (MStatus.ERROR_NOT_INITIALIZED, st, none)
  else if st.transmitting then (MStatus.ERROR_INVALID_PARAMS, st, none)
  else
    match kissFrame with
    | [] => (MStatus.ERROR_INVALID_PARAMS, st, none)
    | k :: rest =>
      if k ≠ 0x00 then (MStatus.ERROR_INVALID_PARAMS, st, none)
      else
        match encodeAX25M rest 1024 with
        | none => (MStatus.ERROR_BUFFER_OVERFLOW, st, none)
        | some stuffed =>
          let nrzi := encodeNRZIM stuffed 8192
          if nrzi.length = 0 then (MStatus.ERROR_BUFFER_OVERFLOW, st, none)
          else (MStatus.SUCCESS, st, some nrzi)

/-- Total number of count increments performed so far by the packing loop:
eight per flushed byte (the opening flag does not count) plus the current
bit cursor.  The cursor is not reset when the overflow slip fires, so this
quantity also tracks the buggy executions. -/
def stuffT (s : StuffState) : Nat :=
  8 * (s.out.length - 1) + s.count

/-- Invariant of the packing loop after n input bits: the output is
nonempty (opening flag), at most one cursor increment happens per input
bit beyond the data bit itself, and every stuffed increment is paid for by
five one-bits since the previous stuffing. -/
def StuffInv (n : Nat) (s : StuffState) : Prop :=
  1 ≤ s.out.length ∧ n ≤ stuffT s ∧ 5 * (stuffT s - n) + s.ones ≤ n

-- sanity checks while developing (kept as examples, they are cheap)
example : byteBits 0x7E = [false, true, true, true, true, true, true, false] := by decide
example : ax25Encode [0xF8, 0x00] = [0x7E, 0xF8, 0x7E] := by decide
example : ax25Encode [0x1F] = [0x7E, 0x1F, 0x00, 0x7E] := by decide
example : nrziDecodeXor true (nrziEncode [0x00]) = byteBits 0xFF := by decide

/-! Supporting lemmas. -/

theorem byteBits_length (b : Nat) : (byteBits b).length = 8 := by
  simp [byteBits]

theorem bytesBits_cons (b : Nat) (bs : List Nat) :
    bytesBits (b :: bs) = byteBits b ++ bytesBits bs := by
  simp [bytesBits]

theorem bytesBits_length (bs : List Nat) : (bytesBits bs).length = 8 * bs.length := by
  induction bs with
  | nil => rfl
  | cons b bs ih =>
    rw [bytesBits_cons, List.length_append, byteBits_length, ih, List.length_cons]
    ring

theorem nrziEncodeBits_length (bs : List Bool) :
    ∀ p : Bool, (nrziEncodeBits p bs).length = bs.length := by
  induction bs with
  | nil => intro p; rfl
  | cons b bs ih => intro p; simp [nrziEncodeBits, ih]

theorem nrziEncode_length (input : List Nat) :
    (nrziEncode input).length = 8 * input.length := by
  rw [nrziEncode, nrziEncodeBits_length, bytesBits_length]

theorem nrziDecodeXnor_encodeBits (bs : List Bool) :
    ∀ p : Bool, nrziDecodeXnor p (nrziEncodeBits p bs) = bs := by
  induction bs with
  | nil => intro p; rfl
  | cons b bs ih =>
    intro p
    cases b <;> cases p <;> simp [nrziEncodeBits, nrziDecodeXnor, Bool.xor, ih]

theorem nrziDecodeXor_encodeBits (bs : List Bool) :
    ∀ p : Bool, nrziDecodeXor p (nrziEncodeBits p bs) = bs.map (fun b => !b) := by
  induction bs with
  | nil => intro p; rfl
  | cons b bs ih =>
    intro p
    cases b <;> cases p <;> simp [nrziEncodeBits, nrziDecodeXor, Bool.xor, ih]

theorem kissWrites_eq (data : List Nat) :
    kissWrites data = (data.map kissEscape).flatten := by
  induction data with
  | nil => rfl
  | cons d rest ih =>
    by_cases h1 : d = 0xC0
    · simp [kissWrites, kissEscape, h1, ih]
    · by_cases h2 : d = 0xDB <;> simp [kissWrites, kissEscape, h1, h2, ih]

theorem goertzelLoop_eq (cm cs : ℚ) (xs : List ℚ) :
    ∀ a b : ℚ × ℚ,
      goertzelLoop cm cs (a, b) xs =
        (xs.foldl (goertzelStep cm) a, xs.foldl (goertzelStep cs) b) := by
  induction xs with
  | nil => intro a b; rfl
  | cons x xs ih =>
    intro a b
    obtain ⟨a1, a2⟩ := a
    obtain ⟨b1, b2⟩ := b
    simp [goertzelLoop, goertzelStep, ih]

theorem and_pow15_eq_zero (c : Nat) (h : c < 32768) : c &&& 0x8000 = 0 := by
  apply Nat.eq_of_testBit_eq
  intro i
  simp only [Nat.testBit_and, Nat.zero_testBit, Bool.and_eq_false_iff]
  rcases eq_or_ne i 15 with rfl | hi
  · left
    exact Nat.testBit_lt_two_pow ((by norm_num : (2:Nat) ^ 15 = 32768) ▸ h)
  · right
    rw [show (0x8000 : Nat) = 2 ^ 15 by norm_num, Nat.testBit_two_pow]
    simp [Ne.symm hi]

theorem crcShift_lt (c : Nat) : crcShift c < 65536 := by
  rw [crcShift]
  split <;> exact Nat.mod_lt _ (by norm_num)

theorem crcShift_of_lt (c : Nat) (h : c < 32768) : crcShift c = 2 * c := by
  rw [crcShift, if_neg (by simp [and_pow15_eq_zero c h]), Nat.shiftLeft_eq]
  rw [Nat.mod_eq_of_lt (by omega : c * 2 ^ 1 < 65536)]
  ring

theorem crcShift_iter_eq (x : Nat) (hx : x < 256) :
    ∀ k : Nat, k ≤ 8 → crcShift^[k] x = x * 2 ^ k := by
  intro k
  induction k with
  | zero => intro _; simp
  | succ n ih =>
    intro hk
    rw [Function.iterate_succ_apply', ih (by omega), crcShift_of_lt]
    · ring
    · have h1 : 2 ^ n ≤ 128 := by
        calc 2 ^ n ≤ 2 ^ 7 := Nat.pow_le_pow_right (by norm_num) (by omega)
        _ = 128 := by norm_num
      calc x * 2 ^ n ≤ 255 * 128 := Nat.mul_le_mul (by omega) h1
      _ < 32768 := by norm_num

theorem xor_mul_add (a b : Nat) (hb : b < 256) : (2 ^ 8 * a + b) ^^^ (2 ^ 8 * a) = b := by
  apply Nat.eq_of_testBit_eq
  intro j
  rw [Nat.testBit_xor, Nat.testBit_mul_pow_two_add a (lt_of_lt_of_le hb (by norm_num)) j,
    Nat.testBit_mul_pow_two]
  by_cases hj : j < 8
  · simp [hj, Nat.not_le.mpr hj]
  · have h8 : 8 ≤ j := Nat.not_lt.mp hj
    have hpow : (256 : Nat) ≤ 2 ^ j := by
      calc (256 : Nat) = 2 ^ 8 := by norm_num
      _ ≤ 2 ^ j := Nat.pow_le_pow_right (by norm_num) h8
    have hbj : b.testBit j = false := Nat.testBit_lt_two_pow (lt_of_lt_of_le hb hpow)
    simp [hj, h8, hbj]

theorem crcByte_lt (c d : Nat) : crcByte c d < 65536 := by
  rw [crcByte, show (8 : Nat) = 7 + 1 by rfl, Function.iterate_succ_apply']
  exact crcShift_lt _

theorem crcByte_hi (c : Nat) (h : c < 65536) : crcByte c (c / 256) = c % 256 * 256 := by
  rw [crcByte, Nat.mod_eq_of_lt (by omega : c / 256 < 256), Nat.shiftLeft_eq]
  have he : c ^^^ c / 256 * 2 ^ 8 = c % 256 := by
    calc c ^^^ c / 256 * 2 ^ 8
        = (2 ^ 8 * (c / 256) + c % 256) ^^^ 2 ^ 8 * (c / 256) := by
          rw [Nat.mul_comm (c / 256)]
          congr 1
          omega
      _ = c % 256 := xor_mul_add _ _ (Nat.mod_lt _ (by norm_num))
  rw [he, Nat.mod_eq_of_lt (by omega : c % 256 < 65536),
    crcShift_iter_eq _ (Nat.mod_lt _ (by norm_num)) 8 (le_refl 8)]
  norm_num

theorem crcByte_lo (x : Nat) (hx : x < 256) : crcByte (x * 256) x = 0 := by
  rw [crcByte, Nat.mod_eq_of_lt hx, Nat.shiftLeft_eq,
    show (2 : Nat) ^ 8 = 256 by norm_num, Nat.xor_self]
  rw [Nat.zero_mod, crcShift_iter_eq 0 (by norm_num) 8 (le_refl 8)]
  ring

theorem crc16_ccitt_lt (data : List Nat) : crc16_ccitt data < 65536 := by
  rw [crc16_ccitt]
  have h : ∀ (l : List Nat) (c : Nat), c < 65536 → l.foldl crcByte c < 65536 := by
    intro l
    induction l with
    | nil => intro c hc; simpa using hc
    | cons d l ih => intro c _; rw [List.foldl_cons]; exact ih _ (crcByte_lt c d)
  exact h data 0xFFFF (by norm_num)

theorem crc_append_residue (payload : List Nat) :
    crc16_ccitt (payload ++ [crc16_ccitt payload / 256, crc16_ccitt payload % 256]) = 0 := by
  have hc := crc16_ccitt_lt payload
  rw [crc16_ccitt, List.foldl_append, List.foldl_cons, List.foldl_cons, List.foldl_nil]
  rw [show List.foldl crcByte 0xFFFF payload = crc16_ccitt payload from rfl]
  rw [crcByte_hi _ hc, crcByte_lo _ (Nat.mod_lt _ (by norm_num))]

theorem stuffStep_inv (s : StuffState) (b : Bool) (n : Nat) (h : StuffInv n s) :
    StuffInv (n + 1) (stuffStep s b) := by
  obtain ⟨h1, h2, h3⟩ := h
  rw [StuffInv, stuffT] at *
  rw [stuffStep]
  split_ifs <;>
    simp only [List.length_append, List.length_cons, List.length_nil] <;>
    omega

theorem stuffFold_inv (bits : List Bool) :
    ∀ (s : StuffState) (n : Nat), StuffInv n s →
      StuffInv (n + bits.length) (bits.foldl stuffStep s) := by
  induction bits with
  | nil => intro s n h; simpa using h
  | cons b bs ih =>
    intro s n h
    rw [List.foldl_cons, List.length_cons]
    have h2 := ih (stuffStep s b) (n + 1) (stuffStep_inv s b n h)
    rw [show n + (bs.length + 1) = n + 1 + bs.length by omega]
    exact h2

theorem ax25Encode_length_bound (input : List Nat) :
    40 * (ax25Encode input).length ≤ 48 * input.length + 120 := by
  have hinv := stuffFold_inv (bytesBits input) ⟨[0x7E], 0, 0, 0⟩ 0
    (by rw [StuffInv, stuffT]; simp)
  rw [bytesBits_length, Nat.zero_add] at hinv
  obtain ⟨h1, h2, h3⟩ := hinv
  rw [stuffT] at h2 h3
  rw [ax25Encode]
  split_ifs <;> simp only [List.length_append, List.length_cons, List.length_nil] <;> omega

theorem stuffFold_zeros (k : Nat) :
    ∀ out : List Nat,
      (List.replicate (8 * k) false).foldl stuffStep ⟨out, 0, 0, 0⟩
        = ⟨out ++ List.replicate k 0, 0, 0, 0⟩ := by
  induction k with
  | zero => intro out; simp
  | succ n ih =>
    intro out
    rw [show 8 * (n + 1) = 8 + 8 * n by ring, List.replicate_add, List.foldl_append]
    have hstep : (List.replicate 8 false).foldl stuffStep ⟨out, 0, 0, 0⟩
        = ⟨out ++ [0], 0, 0, 0⟩ := by
      simp [List.replicate_succ, stuffStep]
    rw [hstep, ih, List.append_assoc]
    simp [List.replicate_succ]

theorem bytesBits_zeros (m : Nat) :
    bytesBits (List.replicate m 0x00) = List.replicate (8 * m) false := by
  induction m with
  | zero => rfl
  | succ n ih =>
    rw [List.replicate_succ, bytesBits_cons, ih,
      show byteBits 0x00 = List.replicate 8 false from by decide,
      show 8 * (n + 1) = 8 + 8 * n by ring, List.replicate_add]

theorem ax25Encode_zeros (m : Nat) :
    ax25Encode (List.replicate m 0x00) = (0x7E :: List.replicate m 0) ++ [0x7E] := by
  rw [ax25Encode, bytesBits_zeros, stuffFold_zeros]
  simp

/-! Claim theorems. -/

/-- C1: evaluation of ax25Encode at the failing input [0xF8, 0x00].  The
fifth consecutive one of 0xF8 lands at bit position 7, count jumps from 7
to 9, and the flush test count == 8 can never fire again: the function
returns only [0x7E, 0xF8, 0x7E].  De-stuffing the payload region of that
output returns the eight bits of 0xF8, not the sixteen bits of the
original input, so the stated round trip fails on the code. -/
theorem c1_ax25Encode_boundary_stuff_drops_bits :
    ax25Encode [0xF8, 0x00] = [0x7E, 0xF8, 0x7E] ∧
    unstuff 0 (bytesBits (((ax25Encode [0xF8, 0x00]).drop 1).dropLast)) = bytesBits [0xF8] ∧
    bytesBits [0xF8] ≠ bytesBits [0xF8, 0x00] := by
  refine ⟨by decide, by decide, by decide⟩

/-- C2 counterexample: the decoder exactly as the claim specifies it —
logical = previous XOR current with the previous bit initialised to true,
the encoder initial polarity — applied to nrziEncode [0x00] yields the
bits of 0xFF, not the bits of 0x00, so the claimed round trip fails
already at the one-byte buffer [0x00]. -/
theorem c2_xor_decoder_fails_roundtrip :
    nrziDecodeXor true (nrziEncode [0x00]) = bytesBits [0xFF] ∧
    nrziDecodeXor true (nrziEncode [0x00]) ≠ bytesBits [0x00] := by
  refine ⟨by decide, by decide⟩

/-- C2 amended: for every byte buffer of length 1..256, the XOR decoder of
the claim recovers the bitwise complement of the input, and the XNOR
decoder (logical = NOT (previous XOR current), previous initialised to
true) recovers the input bit-for-bit. -/
theorem c2_nrzi_roundtrip_xnor (B : List Nat) (h1 : 1 ≤ B.length) (h2 : B.length ≤ 256) :
    nrziDecodeXnor true (nrziEncode B) = bytesBits B ∧
    nrziDecodeXor true (nrziEncode B) = (bytesBits B).map (fun b => !b) := by
  rw [nrziEncode, nrziDecodeXnor_encodeBits, nrziDecodeXor_encodeBits]
  exact ⟨rfl, rfl⟩

/-- C2 witness: the amended round trip at the concrete buffer [0xA5]. -/
theorem c2_nrzi_roundtrip_xnor_witness :
    nrziDecodeXnor true (nrziEncode [0xA5]) = bytesBits [0xA5] ∧
    nrziDecodeXor true (nrziEncode [0xA5]) = (bytesBits [0xA5]).map (fun b => !b) :=
  c2_nrzi_roundtrip_xnor [0xA5] (by decide) (by decide)

/-- C3: for every payload, the crc16_ccitt of the payload followed by the
two bytes of its own CRC (high byte first) is the residue 0x0000, never
the claimed 0xF0B8; concretely crc16_ccitt [0x41] = 0xB915 and appending
those two bytes gives 0, while appending them low byte first gives 0x2C75,
also not 0xF0B8.  0xF0B8 is the residue of the bit-reversed CRC
convention, so the acceptance test crc == 0xF0B8 in handleBit can never
accept a frame whose trailing bytes equal crc16_ccitt of its payload. -/
theorem c3_crc_residue_zero_not_F0B8 :
    (∀ payload : List Nat,
      crc16_ccitt (payload ++ [crc16_ccitt payload / 256, crc16_ccitt payload % 256]) = 0) ∧
    crc16_ccitt [0x41] = 0xB915 ∧
    crc16_ccitt [0x41, 0xB9, 0x15] = 0 ∧
    crc16_ccitt [0x41, 0x15, 0xB9] = 0x2C75 ∧
    (0 : Nat) ≠ 0xF0B8 ∧ (0x2C75 : Nat) ≠ 0xF0B8 := by
  refine ⟨crc_append_residue, by decide, by decide, by decide, by decide, by decide⟩

/-- C4: feeding handleBit the complete NRZI bit stream of the stuffed
frame for the payload [0x41] with its genuine CRC bytes 0xB9 0x15
appended produces no call to sendKISSpacket, no flag detection and no
append into the frame buffer, because every piece of decoder state is a
local re-initialised at each call; the claimed cross-call persistence does
not exist in the code. -/
theorem c4_handleBit_state_lost_no_handoff :
    (((nrziEncode (ax25Encode [0x41, 0xB9, 0x15])).map handleBit).map HBResult.sent).flatten
      = [] ∧
    ((nrziEncode (ax25Encode [0x41, 0xB9, 0x15])).map handleBit).all
      (fun r => !r.flagged && !r.appended) = true := by
  refine ⟨by decide, by decide⟩

/-- C5: a single call of handleBit, for either bit value, hands nothing to
sendKISSpacket, never matches the flag pattern in its freshly zeroed shift
register, and never executes the in-frame append branch. -/
theorem c5_handleBit_never_sends_never_appends (b : Bool) :
    (handleBit b).sent = [] ∧ (handleBit b).flagged = false ∧
    (handleBit b).appended = false := by
  cases b <;> exact ⟨rfl, rfl, rfl⟩

/-- C6 counterexample: a transmit request arriving while a transmission is
in progress is answered with ERROR_INVALID_PARAMS, the very constructor
returned for a malformed frame, in both cited variants (transmitPacket of
the modern encoder and afskSend of the function-based encoder with its
length-zero check in the placeholder transmitAX25), so the busy status is
not distinct from the bad-input status. -/
theorem c6_busy_status_equals_bad_input_status :
    (transmitPacket ⟨true, true⟩ [0x00, 0x41]).1 = MStatus.ERROR_INVALID_PARAMS ∧
    (transmitPacket ⟨true, false⟩ [0x01, 0x41]).1 = MStatus.ERROR_INVALID_PARAMS ∧
    (afskSend true true (bytesBits [0x00, 0x41])).1 = AfskStatus.AFSK_ERROR_INVALID_PARAMS ∧
    (transmitAX25placeholder true false []).1 = AfskStatus.AFSK_ERROR_INVALID_PARAMS := by
  refine ⟨by decide, by decide, by decide, by decide⟩

/-- C6 amended: while a transmission is in progress, a second request is
rejected immediately with ERROR_INVALID_PARAMS (commented Already
transmitting in the source), nothing is queued, nothing is modulated, and
the encoder state — hence the in-progress transmission — is untouched;
afskSend of the function-based variant behaves the same way.  The status
is not a distinct busy code. -/
theorem c6_busy_rejected_nothing_queued (st : ModernState) (frame : List Nat)
    (bits : List Bool) (h1 : st.inited = true) (h2 : st.transmitting = true) :
    transmitPacket st frame = (MStatus.ERROR_INVALID_PARAMS, st, none) ∧
    afskSend true true bits = (AfskStatus.AFSK_ERROR_INVALID_PARAMS, none) := by
  constructor
  · rw [transmitPacket.eq_def, if_neg (by rw [h1]; simp), if_pos (by rw [h2])]
  · rfl

/-- C6 witness: the amended statement at a concrete busy state and frame. -/
theorem c6_busy_rejected_nothing_queued_witness :
    transmitPacket ⟨true, true⟩ [0x00, 0x41] = (MStatus.ERROR_INVALID_PARAMS, ⟨true, true⟩, none) ∧
    afskSend true true [] = (AfskStatus.AFSK_ERROR_INVALID_PARAMS, none) :=
  c6_busy_rejected_nothing_queued ⟨true, true⟩ [0x00, 0x41] [] rfl rfl

/-- C7 counterexample: the placeholder transmitAX25 of src/afskEncoder.cpp,
in the ready state, accepts the frame [0x01] whose first byte is not the
KISS command byte 0x00 and transmits the raw bits of the whole frame
instead of rejecting it as a no-op. -/
theorem c7_placeholder_transmits_bad_command_byte :
    transmitAX25placeholder true false [0x01]
      = (AfskStatus.AFSK_SUCCESS, some (bytesBits [0x01])) ∧
    (transmitAX25placeholder true false [0x01]).2 ≠ none := by
  refine ⟨by decide, by decide⟩

/-- C7 amended: the transmitAX25 of src/afskEncode.cpp — the one called by
checkBTforData — rejects an empty frame or a frame with a non-0x00 first
byte as a no-op without ever asserting PTT, and for an accepted frame
sends exactly the NRZI encoding of the stuffed encoding of the bytes after
the command byte; the placeholder transmitAX25 of src/afskEncoder.cpp
instead rejects only empty input and otherwise transmits the raw bits of
every byte of the frame, command byte included. -/
theorem c7_transmitAX25_command_byte_gating :
    (∀ (k : Nat) (rest : List Nat), k ≠ 0x00 → transmitAX25 (k :: rest) = ⟨false, none⟩) ∧
    transmitAX25 [] = ⟨false, none⟩ ∧
    (∀ rest : List Nat,
      transmitAX25 (0x00 :: rest) = ⟨true, some (nrziEncode (ax25Encode rest))⟩) ∧
    (∀ frame : List Nat, frame ≠ [] →
      transmitAX25placeholder true false frame
        = (AfskStatus.AFSK_SUCCESS, some (bytesBits frame))) := by
  refine ⟨?_, rfl, ?_, ?_⟩
  · intro k rest hk
    simp [transmitAX25, hk]
  · intro rest
    simp [transmitAX25]
  · intro frame hf
    rw [transmitAX25placeholder, if_neg (by simp [List.length_eq_zero, hf])]
    rfl

/-- C7 witness: the gating at concrete frames — the bad command byte 0x01
is a no-op, the frame [0x00, 0x41] is encoded from its payload [0x41], and
the placeholder transmits [0x01] raw. -/
theorem c7_transmitAX25_command_byte_gating_witness :
    transmitAX25 [0x01] = ⟨false, none⟩ ∧
    transmitAX25 [0x00, 0x41] = ⟨true, some (nrziEncode (ax25Encode [0x41]))⟩ ∧
    transmitAX25placeholder true false [0x01]
      = (AfskStatus.AFSK_SUCCESS, some (bytesBits [0x01])) :=
  ⟨c7_transmitAX25_command_byte_gating.1 0x01 [] (by decide),
   c7_transmitAX25_command_byte_gating.2.2.1 [0x41],
   c7_transmitAX25_command_byte_gating.2.2.2 [0x01] (by decide)⟩

/-- C8 counterexample: the 100-byte all-zero KISS frame is within the
300-byte Bluetooth read and is accepted (leading 0x00), its stuffed
encoding is 101 bytes, and nrziEncode then performs 808 sequential stores
— one output byte per bit — into the 600-byte nrzi buffer, so the stores
from index 600 on are out of bounds. -/
theorem c8_nrzi_overflow_at_100_byte_frame :
    (List.replicate 100 (0x00 : Nat)).length ≤ 300 ∧
    (List.replicate 100 (0x00 : Nat)).head? = some 0x00 ∧
    (ax25Encode (List.replicate 100 (0x00 : Nat)).tail).length = 101 ∧
    (nrziEncode (ax25Encode (List.replicate 100 (0x00 : Nat)).tail)).length = 808 ∧
    600 < 808 := by
  have htail : (List.replicate 100 (0x00 : Nat)).tail = List.replicate 99 0x00 := rfl
  have hlen : (ax25Encode (List.replicate 99 (0x00 : Nat))).length = 101 := by
    rw [ax25Encode_zeros]
    simp
  rw [htail]
  refine ⟨by simp, rfl, hlen, ?_, by norm_num⟩
  rw [nrziEncode_length, hlen]

/-- C8 amended: for every KISS frame up to the 300 bytes checkBTforData
can read that transmitAX25 accepts, the sequential stores of ax25Encode
all land inside the 600-byte stuffed buffer; nrziEncode performs exactly
eight stores per stuffed byte, so its stores stay inside the 600-byte
nrzi buffer only when the stuffed length is at most 75 bytes, which the
length bound guarantees for frames of at most 61 bytes — not for all
frames up to 300 bytes. -/
theorem c8_encode_store_bounds (frame : List Nat) (h300 : frame.length ≤ 300)
    (hhead : frame.head? = some 0x00) :
    (ax25Encode frame.tail).length ≤ 600 ∧
    (nrziEncode (ax25Encode frame.tail)).length = 8 * (ax25Encode frame.tail).length ∧
    (frame.length ≤ 61 → (nrziEncode (ax25Encode frame.tail)).length ≤ 600) := by
  have hb := ax25Encode_length_bound frame.tail
  have ht : frame.tail.length = frame.length - 1 := List.length_tail frame
  refine ⟨by omega, nrziEncode_length _, ?_⟩
  intro h61
  rw [nrziEncode_length]
  omega

/-- C8 witness: the amended bounds at the smallest accepted frame. -/
theorem c8_encode_store_bounds_witness :
    (ax25Encode ([0x00] : List Nat).tail).length ≤ 600 ∧
    (nrziEncode (ax25Encode ([0x00] : List Nat).tail)).length
      = 8 * (ax25Encode ([0x00] : List Nat).tail).length ∧
    (([0x00] : List Nat).length ≤ 61 →
      (nrziEncode (ax25Encode ([0x00] : List Nat).tail)).length ≤ 600) :=
  c8_encode_store_bounds [0x00] (by decide) rfl

/-- C9: per block, processGoertzel starts both recurrences at (0,0),
centres each of the 64 ADC readings by subtracting 2048, runs the
recurrence qNew = coeff*q1 - q2 + sample independently for the mark and
space coefficients, and emits exactly one bit, true exactly when the mark
magnitude q1*q1 + q2*q2 - q1*q2*coeff strictly exceeds the space
magnitude; on a tie the bit is false (space).  The float arithmetic of
the source is modelled exactly over the rationals. -/
theorem c9_processGoertzel_block_decision (cm cs : ℚ) (adc : List ℤ)
    (h : adc.length = 64) :
    processGoertzel cm cs adc =
      [decide (goertzelMag cs (adc.map (fun a => ((a - 2048 : ℤ) : ℚ))) <
               goertzelMag cm (adc.map (fun a => ((a - 2048 : ℤ) : ℚ))))] ∧
    (processGoertzel cm cs adc).length = 1 ∧
    (goertzelMag cm (adc.map (fun a => ((a - 2048 : ℤ) : ℚ))) =
        goertzelMag cs (adc.map (fun a => ((a - 2048 : ℤ) : ℚ))) →
      processGoertzel cm cs adc = [false]) := by
  have key : processGoertzel cm cs adc =
      [decide (goertzelMag cs (adc.map (fun a => ((a - 2048 : ℤ) : ℚ))) <
               goertzelMag cm (adc.map (fun a => ((a - 2048 : ℤ) : ℚ))))] := by
    simp only [processGoertzel, goertzelMag, goertzelLoop_eq]
  refine ⟨key, by rw [key]; rfl, ?_⟩
  intro he
  rw [key, he]
  simp

/-- C9 witness: a silent block (all readings at the ADC midpoint) with
both coefficients zero gives equal magnitudes, and the decided bit is
false, the space value. -/
theorem c9_processGoertzel_block_decision_witness :
    processGoertzel 0 0 (List.replicate 64 2048) = [false] :=
  (c9_processGoertzel_block_decision 0 0 (List.replicate 64 2048) (by simp)).2.2 rfl

/-- C10 counterexample: the sendKISSpacket of src/btKISSfunctions.cpp
writes no 0x00 command byte: on the empty payload it writes [0xC0, 0xC0],
not the claimed [0xC0, 0x00, 0xC0]. -/
theorem c10_btKISS_variant_omits_command_byte :
    sendKISSpacketBT [] = [0xC0, 0xC0] ∧
    sendKISSpacketBT [] ≠ [0xC0, 0x00, 0xC0] := by
  refine ⟨by decide, by decide⟩

/-- C10 amended: for every payload, the sendKISSpacket of
src/goertzelFilter.cpp writes exactly FEND, the command byte 0x00, the
payload with every 0xC0 replaced by 0xDB 0xDC and every 0xDB replaced by
0xDB 0xDD, and a closing FEND; the variant in src/btKISSfunctions.cpp
writes the same framing and escaping but without the 0x00 command byte. -/
theorem c10_sendKISSpacket_framing (data : List Nat) :
    sendKISSpacket data = [0xC0, 0x00] ++ (data.map kissEscape).flatten ++ [0xC0] ∧
    sendKISSpacketBT data = [0xC0] ++ (data.map kissEscape).flatten ++ [0xC0] := by
  rw [sendKISSpacket, sendKISSpacketBT, kissWrites_eq]
  exact ⟨rfl, rfl⟩
